import Mathlib

/-!
Verification of the sandboxed Python execution engine of DesktopCommanderMCP
(`src/tools/python-executor.ts` and `src/tools/schemas.ts`), as a shallow
embedding in Lean 4.  Filesystem primitives of the host (Node `path`,
`realpath`, environment access, process spawning) are modelled explicitly;
the functions of the source are translated one-to-one.
-/

namespace PyExec

/-! ## Generic string helpers (substring containment, used to state that an
error message names an offending input, and that captured output appears in a
report). -/

/-- Whether the second list is a leading segment of the first. -/
def startsWithL : List Char → List Char → Bool
  | _, [] => true
  | [], _ :: _ => false
  | a :: l, b :: m => a == b && startsWithL l m

/-- Whether the second list occurs contiguously anywhere inside the first. -/
def containsL : List Char → List Char → Bool
  | [], sub => startsWithL [] sub
  | a :: t, sub => startsWithL (a :: t) sub || containsL t sub

/-- Substring containment on strings. -/
def strContains (s sub : String) : Bool :=
  containsL s.toList sub.toList

/-- `str.startsWith(pre)` (JS) / `str.startswith(pre)` (guest language). -/
def strStartsWith (s pre : String) : Bool := startsWithL s.toList pre.toList

/-! ## Timeout resolution (`executePythonCode`, python-executor.ts lines 35-42)

`timeout_ms` is either the literal sentinel `"auto"` or a number; the sentinel
resolves to 120000 ms when packages are to be installed and 30000 ms
otherwise, while a numeric value is taken as-is. -/

/-- The `timeout_ms` request field after schema validation: the `"auto"`
sentinel or an explicit number of milliseconds. -/
inductive TimeoutArg where
  | auto : TimeoutArg
  | explicitMs (n : Nat) : TimeoutArg
deriving DecidableEq, Repr

/-- `install_packages` is optional in the request; `none` models an absent
field. -/
def packagesRequested (install_packages : Option (List String)) : Bool :=
  match install_packages with
  | none => false
  | some l => l.length > 0

/-- Effective timeout computation of `executePythonCode`:
`timeout_ms === "auto" ? (install_packages && install_packages.length > 0 ? 120000 : 30000) : timeout_ms`. -/
def resolveTimeout (t : TimeoutArg) (install_packages : Option (List String)) : Nat :=
  match t with
  | .auto => if packagesRequested install_packages then 120000 else 30000
  | .explicitMs n => n

/-! ## Package specifier validation (`schemas.ts` line 8, `installPythonPackages`,
python-executor.ts lines 749-802)

`PACKAGE_NAME_REGEX` is the JavaScript regex
`^(?!-)(?!.*(\.\.|--))[A-Za-z0-9_.\-\[\]!\>=<,]+$`: a non-empty string of the
allowed characters that does not start with `-` and contains neither `..` nor
`--`.  `installPythonPackages` re-checks every specifier against it (and the
leading `-` rule) before building the pip command line. -/

/-- A character matched by the class `[A-Za-z0-9_.\-\[\]!\>=<,]`. -/
def allowedPkgChar (c : Char) : Bool :=
  c.isAlpha || c.isDigit ||
    c == '_' || c == '.' || c == '-' || c == '[' || c == ']' ||
    c == '!' || c == '=' || c == '<' || c == '>' || c == ','

/-- Semantics of `PACKAGE_NAME_REGEX.test`. -/
def PACKAGE_NAME_REGEX (s : String) : Bool :=
  !(strStartsWith s "-") && !(strContains s "..") && !(strContains s "--") &&
    s.length > 0 && s.toList.all allowedPkgChar

/-- A subprocess spawned while handling an install request: the
`cmd --version` probe of `findPythonCommand`, or the pip install itself. -/
inductive Spawned where
  | versionProbe (cmd : String) : Spawned
  | pipInstall (cmd : String) (cmdArgs : List String) : Spawned
deriving DecidableEq, Repr

/-- `findPythonCommand` (python-executor.ts lines 1029-1095): try `python3`
then `python`, spawning a `--version` probe for each until one succeeds
(`probeOk cmd` abstracts "the probe exits 0 and reports Python ≥ 3").
Returns the probes spawned and the command found, if any. -/
def findPythonCommand (probeOk : String → Bool) : List Spawned × Option String :=
  if probeOk "python3" then ([.versionProbe "python3"], some "python3")
  else if probeOk "python" then
    ([.versionProbe "python3", .versionProbe "python"], some "python")
  else ([.versionProbe "python3", .versionProbe "python"], none)

/-- Error text for a specifier starting with `-`. -/
def invalidLeadingDashMsg (pkg : String) : String :=
  "Error: Invalid package name \x27" ++ pkg ++
    "\x27. Package names cannot start with \x27-\x27 to prevent argument injection."

/-- Error text for a specifier failing the character/substring rules. -/
def invalidCharsetMsg (pkg : String) : String :=
  "Error: Invalid package name \x27" ++ pkg ++
    "\x27. Package names may only contain letters, digits, \x27_\x27, \x27.\x27, \x27-\x27, and version specifiers ([, ], !, =, <, >, ,)."

/-- The `for (const pkg of packages)` validation loop of
`installPythonPackages`: the first offending specifier produces the error
result returned for the whole batch. -/
def validatePackagesLoop : List String → Option String
  | [] => none
  | pkg :: rest =>
    if strStartsWith pkg "-" then some (invalidLeadingDashMsg pkg)
    else if !PACKAGE_NAME_REGEX pkg then some (invalidCharsetMsg pkg)
    else validatePackagesLoop rest

/-- `installPythonPackages` (lines 749-802 and the spawn at 793-802): find
the interpreter (spawning version probes), fail if none, then validate every
specifier, and only when all pass spawn
`pythonCmd -m pip install --target <dir> <packages...>`.  The result is the
list of subprocesses spawned plus the error text of the rejection, if any
(the minimal environment of the pip spawn is modelled separately by
`buildMinimalEnvironment`). -/
def installPythonPackages (probeOk : String → Bool) (packagesDir : String)
    (packages : List String) : List Spawned × Option String :=
  match findPythonCommand probeOk with
  | (probes, none) =>
    (probes, some "Error: Python is not installed or not found in PATH. Please install Python 3 to use this tool.")
  | (probes, some pythonCmd) =>
    match validatePackagesLoop packages with
    | some msg => (probes, some msg)
    | none =>
      (probes ++
        [.pipInstall pythonCmd (["-m", "pip", "install", "--target", packagesDir] ++ packages)],
       none)

/-! ## Confinement shim: `_is_path_allowed` and `_safe_open`
(generated wrapper, python-executor.ts lines 292-335)

The candidate is converted with `os.fspath` (raises `TypeError` on ints),
resolved with `os.path.realpath(os.path.expanduser(...))` (modelled as an
abstract `resolvePath : String → Option String`, `none` being a raised
`OSError`/`ValueError`), lower-cased on win32, and compared with every allowed
root (itself resolved and folded the same way) for equality or a
`root + os.sep` boundary match.  Any exception makes the check return
`False`. -/

/-- Argument of a wrapped filesystem primitive: an `int` file descriptor or a
path (strings and `os.PathLike` reduced to their `os.fspath` form). -/
inductive OpenArg where
  | fd (n : Int) : OpenArg
  | path (s : String) : OpenArg
deriving DecidableEq, Repr

/-- `os.fspath`: identity on paths, `TypeError` (modelled as `none`) on
integer file descriptors. -/
def osFspath : OpenArg → Option String
  | .path s => some s
  | .fd _ => none

/-- Case folding applied on win32 (`real_path.lower()`), ASCII model. -/
def foldCase (win32 : Bool) (s : String) : String :=
  if win32 then String.mk (s.toList.map Char.toLower) else s

/-- The normalized form `_is_path_allowed` compares: symlink-resolved,
`~`-expanded (the abstract `resolvePath`), lower-cased on Windows. -/
def normForm (resolvePath : String → Option String) (win32 : Bool) (s : String) :
    Option String :=
  (resolvePath s).map (foldCase win32)

/-- The `for allowed_dir in allowed_dirs` loop of `_is_path_allowed`:
`none` is an exception raised while resolving a root (propagating to the
enclosing `except`, i.e. the whole check). -/
def allowLoop (resolvePath : String → Option String) (win32 : Bool) (sep : String)
    (real_path : String) : List String → Option Bool
  | [] => some false
  | d :: rest =>
    match normForm resolvePath win32 d with
    | none => none
    | some allowed_real =>
      if real_path == allowed_real ||
          startsWithL real_path.toList (allowed_real ++ sep).toList then
        some true
      else allowLoop resolvePath win32 sep real_path rest

/-- `_is_path_allowed`: the body runs under a `try` whose `except` arms all
return `False` (fail closed). -/
def is_path_allowed (resolvePath : String → Option String) (win32 : Bool)
    (sep : String) (allowed_dirs : List String) (file : OpenArg) : Bool :=
  match osFspath file with
  | none => false
  | some fp =>
    match normForm resolvePath win32 fp with
    | none => false
    | some rp =>
      match allowLoop resolvePath win32 sep rp allowed_dirs with
      | none => false
      | some b => b

/-- Observable behaviour of `_safe_open`: `callOriginal checked` invokes the
captured `_original_open` (`checked` records whether the allow-list check ran
first); `raisePermissionError` raises without invoking it. -/
inductive OpenOutcome where
  | callOriginal (checked : Bool) : OpenOutcome
  | raisePermissionError : OpenOutcome
deriving DecidableEq, Repr

/-- `_safe_open`: `file in (0, 1, 2)` short-circuits to the original `open`;
every other argument goes through `_is_path_allowed`. -/
def safe_open (resolvePath : String → Option String) (win32 : Bool) (sep : String)
    (allowed_dirs : List String) (file : OpenArg) : OpenOutcome :=
  if file = .fd 0 ∨ file = .fd 1 ∨ file = .fd 2 then .callOriginal false
  else if !(is_path_allowed resolvePath win32 sep allowed_dirs file) then
    .raisePermissionError
  else .callOriginal true

/-! ## Minimal environment (`buildMinimalEnvironment`, python-executor.ts
lines 715-744, and the env setup of `executePythonScript`, lines 929-939)

The host environment is a partial map `String → Option String` (`none` = the
variable is unset).  `buildMinimalEnvironment` reads only the whitelisted
names, turning unset variables into `""` (`process.env.X || ''`), and then
drops every empty-valued entry.  `executePythonScript` then assigns
`env.PYTHONPATH = packagesDir` and, on win32 only, the two UTF-8 variables. -/

/-- The whitelisted variable names, in the order of the object literal. -/
def whitelist (win32 : Bool) : List String :=
  ["PATH", "HOME", "TMPDIR", "TEMP", "TMP"] ++
    (if win32 then
      ["SYSTEMROOT", "WINDIR", "USERNAME", "USERPROFILE", "APPDATA", "LOCALAPPDATA"]
    else
      ["USER", "LOGNAME", "LANG", "LC_ALL"])

/-- The entry `buildMinimalEnvironment` produces for one whitelisted name:
`process.env.k || ''` followed by the `value !== ''` filter. -/
def envEntry (hostEnv : String → Option String) (k : String) : Option (String × String) :=
  match hostEnv k with
  | none => none
  | some v => if v = "" then none else some (k, v)

/-- `buildMinimalEnvironment`. -/
def buildMinimalEnvironment (win32 : Bool) (hostEnv : String → Option String) :
    List (String × String) :=
  (whitelist win32).filterMap (envEntry hostEnv)

/-- JS property assignment `env[k] = v` on the environment object. -/
def setEnvVar (e : List (String × String)) (k v : String) : List (String × String) :=
  (e.filter fun p => !(p.1 == k)) ++ [(k, v)]

/-- Property lookup on the environment object. -/
def lookupEnvVar : List (String × String) → String → Option String
  | [], _ => none
  | p :: rest, k => if p.1 = k then some p.2 else lookupEnvVar rest k

/-- The environment handed to the spawned guest interpreter in
`executePythonScript`: the minimal environment, `PYTHONPATH` set to the
isolated per-request packages directory, plus forced UTF-8 on Windows. -/
def childEnv (win32 : Bool) (hostEnv : String → Option String) (packagesDir : String) :
    List (String × String) :=
  let env := setEnvVar (buildMinimalEnvironment win32 hostEnv) "PYTHONPATH" packagesDir
  if win32 then
    setEnvVar (setEnvVar env "PYTHONIOENCODING" "utf-8") "PYTHONUTF8" "1"
  else env

/-! ## Process runner: two-stage timeout kill and result shaping
(`executePythonScript`, python-executor.ts lines 941-1023;
`KILL_GRACE_PERIOD_MS` line 12; `TIMEOUT_ERROR_PREFIX` line 18)

The runner is a small event system: the deadline timer (armed iff
`timeout_ms > 0`), the grace-period kill timer, the fields the handlers read
(`proc.exitCode`, `proc.signalCode`, `isTimedOut`), and the two terminal
handlers (`close`, `error`) that clear both timers.  An unarmed timer's
callback never runs (clearTimeout), which the step function renders as a
no-op guard. -/

/-- Grace period in milliseconds before SIGKILL follows SIGTERM. -/
def KILL_GRACE_PERIOD_MS : Nat := 5000

/-- Error message prefix for timeout errors. -/
def TIMEOUT_ERROR_PREFIX : String := "Execution timed out after"

/-- Signals the runner can send. -/
inductive Sig where
  | SIGTERM : Sig
  | SIGKILL : Sig
deriving DecidableEq, Repr

/-- Runner state visible to the timer and stream handlers. -/
structure RunnerState where
  deadlineArmed : Bool
  killArmed : Bool
  killDelayMs : Option Nat
  isTimedOut : Bool
  exitCode : Option Int
  signalCode : Option String
  closed : Bool
  signalsSent : List Sig
deriving DecidableEq, Repr

/-- State right after `spawn`: the deadline timer is armed iff
`timeout_ms > 0`. -/
def initialRunnerState (timeout_ms : Nat) : RunnerState :=
  { deadlineArmed := timeout_ms > 0
    killArmed := false
    killDelayMs := none
    isTimedOut := false
    exitCode := none
    signalCode := none
    closed := false
    signalsSent := [] }

/-- Events delivered by the runtime. -/
inductive RunnerEvent where
  | deadlineFires : RunnerEvent
  | graceFires : RunnerEvent
  | procExits (code : Option Int) (sig : Option String) : RunnerEvent
  | streamsClose : RunnerEvent
  | spawnError : RunnerEvent
deriving DecidableEq, Repr

/-- One event of the runner.  `deadlineFires` is the outer `setTimeout`
callback (`isTimedOut = true; proc.kill('SIGTERM')`; arm the kill timer with
`KILL_GRACE_PERIOD_MS`); `graceFires` is the inner callback (SIGKILL only if
`proc.exitCode === null && proc.signalCode === null`); `procExits` is the
OS populating `exitCode`/`signalCode`; `streamsClose` and `spawnError` are
the `close`/`error` handlers, each clearing both timers. -/
def runnerStep (s : RunnerState) (e : RunnerEvent) : RunnerState :=
  match e with
  | .deadlineFires =>
    if s.deadlineArmed then
      { s with deadlineArmed := false
               isTimedOut := true
               signalsSent := s.signalsSent ++ [.SIGTERM]
               killArmed := true
               killDelayMs := some KILL_GRACE_PERIOD_MS }
    else s
  | .graceFires =>
    if s.killArmed then
      { s with killArmed := false
               killDelayMs := none
               signalsSent :=
                 if s.exitCode = none ∧ s.signalCode = none then
                   s.signalsSent ++ [.SIGKILL]
                 else s.signalsSent }
    else s
  | .procExits code sig => { s with exitCode := code, signalCode := sig }
  | .streamsClose =>
    { s with closed := true, deadlineArmed := false, killArmed := false,
             killDelayMs := none }
  | .spawnError =>
    { s with closed := true, deadlineArmed := false, killArmed := false,
             killDelayMs := none }

/-- Response value of the tool layer: text blocks plus an error flag
(absent `isError` in the source is `false`). -/
structure ServerResult where
  content : List String
  isError : Bool
deriving DecidableEq, Repr

/-- `${exitCode}` in the close handler: `null` prints as `"null"`. -/
def exitCodeText : Option Int → String
  | none => "null"
  | some n => toString n

/-- The `close` handler of `executePythonScript` (lines 977-1010): timeout
report, non-zero-exit report, or success output with warnings appended. -/
def closeResult (isTimedOut : Bool) (timeout_ms : Nat) (stdout stderr : String)
    (exitCode : Option Int) : ServerResult :=
  if isTimedOut then
    { content := [TIMEOUT_ERROR_PREFIX ++ " " ++ toString timeout_ms ++ "ms" ++
        "\n\nPartial output:\n" ++ stdout ++ "\n" ++ stderr]
      isError := true }
  else if exitCode ≠ some 0 then
    { content := ["Execution failed (exit code " ++ exitCodeText exitCode ++ "):\n" ++
        stderr ++ "\n" ++ stdout]
      isError := true }
  else
    { content := [(if stdout = "" then "(no output)" else stdout) ++
        (if stderr ≠ "" ∧ stderr.trim ≠ "" then "\n\nWarnings/Info:\n" ++ stderr else "")]
      isError := false }

/-! ## Request schema (`ExecutePythonCodeArgsSchema`, schemas.ts lines
227-255) and the validation front of `executePythonCode` (lines 24-31)

JSON numbers (JS doubles) are modelled as rationals; `z.number().int()` is
the denominator-one test, `.min(1000).max(300000)` the range bounds.  The
zod `.trim()` transforms are an explicit ASCII-whitespace trim. -/

/-- JS `String.prototype.trim` whitespace (ASCII model). -/
def isWS (c : Char) : Bool :=
  c == ' ' || c == '\t' || c == '\n' || c == '\r' || c == '\x0b' || c == '\x0c'

/-- The zod `.trim()` transform. -/
def trimStr (s : String) : String :=
  String.mk (((s.toList.dropWhile isWS).reverse.dropWhile isWS).reverse)

/-- Raw `timeout_ms` field before validation. -/
inductive TimeoutRaw where
  | auto : TimeoutRaw
  | num (q : Rat) : TimeoutRaw
  | absent : TimeoutRaw
deriving DecidableEq, Repr

/-- A request as received (fields of interest to the schema). -/
structure RawRequest where
  code : String
  target_directory : Option String
  timeout_ms : TimeoutRaw
  install_packages : Option (List String)
  workspace : Option String
  return_format : Option String
deriving DecidableEq, Repr

/-- A request after successful schema validation. -/
structure ParsedRequest where
  code : String
  target_directory : Option String
  timeout_ms : TimeoutArg
  install_packages : Option (List String)
  workspace : String
  return_format : String
deriving DecidableEq, Repr

/-- `z.number().int().min(1000).max(300000)`. -/
def validTimeoutNum (q : Rat) : Bool :=
  q.den == 1 && decide ((1000 : Rat) ≤ q) && decide (q ≤ (300000 : Rat))

/-- Validation of the `timeout_ms` union; an absent field defaults to
`"auto"`. -/
def parseTimeout : TimeoutRaw → Option TimeoutArg
  | .auto => some .auto
  | .absent => some .auto
  | .num q => if validTimeoutNum q then some (.explicitMs q.num.toNat) else none

/-- One `install_packages` element:
`z.string().trim().min(1).regex(PACKAGE_NAME_REGEX)`. -/
def validPackage (pkg : String) : Bool :=
  (trimStr pkg).length > 0 && PACKAGE_NAME_REGEX (trimStr pkg)

/-- `workspace` accepts `"persistent"`, `"temp"`, or any custom string, with
default `"temp"`; `return_format` accepts only its two literals, default
`"simple"`. -/
def validReturnFormat : Option String → Bool
  | none => true
  | some f => f == "simple" || f == "detailed"

/-- `ExecutePythonCodeArgsSchema.safeParse`. -/
def parseRequest (r : RawRequest) : Option ParsedRequest :=
  if (trimStr r.code).length = 0 then none
  else
    match parseTimeout r.timeout_ms with
    | none => none
    | some t =>
      if (r.install_packages.getD []).all validPackage = false then none
      else if validReturnFormat r.return_format = false then none
      else some
        { code := trimStr r.code
          target_directory := r.target_directory
          timeout_ms := t
          install_packages := r.install_packages.map (List.map trimStr)
          workspace := r.workspace.getD "temp"
          return_format := r.return_format.getD "simple" }

/-- Outcome of the validation front of `executePythonCode`: schema failure
returns the error result before any directory is created or process spawned;
otherwise execution proceeds with the resolved effective timeout. -/
inductive ExecPlan where
  | invalidArgs : ExecPlan
  | proceed (timeout_ms : Nat) (parsed : ParsedRequest) : ExecPlan
deriving DecidableEq, Repr

/-- Lines 24-42 of `executePythonCode`: `safeParse`, early error return, then
effective-timeout resolution. -/
def executePythonCodeEntry (r : RawRequest) : ExecPlan :=
  match parseRequest r with
  | none => .invalidArgs
  | some p => .proceed (resolveTimeout p.timeout_ms p.install_packages) p

/-! ## Workspace resolver for custom paths (`executePythonCode`,
python-executor.ts lines 84-133), over a model of Node's posix `path` module

Paths are `/`-separated strings; `path.normalize`/`path.resolve` split into
segments, drop empty and `.` segments and apply `..` (clamped at the root,
as for absolute posix paths); `path.relative` walks up from the common
segment prefix.  `process.cwd()` is always absolute, so the single-argument
`path.resolve(process.cwd())` is its normalization. -/

/-- posix `path.isAbsolute`. -/
def pathIsAbsolute (p : String) : Bool :=
  match p.toList with
  | [] => false
  | c :: _ => c == '/'

/-- Split a character list on `/`, accumulating the current segment. -/
def splitSegsAux : List Char → List Char → List String
  | [], acc => [String.mk acc.reverse]
  | c :: rest, acc =>
    if c = '/' then String.mk acc.reverse :: splitSegsAux rest []
    else splitSegsAux rest (c :: acc)

/-- Split a path string into its `/`-separated segments. -/
def splitSegs (s : String) : List String := splitSegsAux s.toList []

/-- Segment normalization with an explicit stack: empty and `.` segments are
dropped, `..` pops (clamped at the root). -/
def normSegs : List String → List String → List String
  | [], stack => stack.reverse
  | seg :: rest, stack =>
    if seg = "" ∨ seg = "." then normSegs rest stack
    else if seg = ".." then normSegs rest stack.tail
    else normSegs rest (seg :: stack)

/-- Join segments with `/` (no leading separator). -/
def joinRel : List String → String
  | [] => ""
  | [s] => s
  | s :: rest => s ++ "/" ++ joinRel rest

/-- Join segments as an absolute path. -/
def joinAbs (segs : List String) : String := "/" ++ joinRel segs

/-- `path.normalize` (= single-argument `path.resolve`) on an absolute
path. -/
def pathNormalize (p : String) : String := joinAbs (normSegs (splitSegs p) [])

/-- `path.resolve(base, p)` with `base` absolute. -/
def pathResolve (base p : String) : String :=
  if pathIsAbsolute p then joinAbs (normSegs (splitSegs p) [])
  else joinAbs (normSegs (splitSegs base ++ splitSegs p) [])

/-- Length of the common segment prefix. -/
def commonLen : List String → List String → Nat
  | a :: as, b :: bs => if a = b then commonLen as bs + 1 else 0
  | _, _ => 0

/-- `path.relative(base, target)` for absolute posix paths: `..` for every
base segment past the common prefix, then the target's remaining segments. -/
def pathRelative (base target : String) : String :=
  joinRel
    (List.replicate
        ((normSegs (splitSegs base) []).length -
          commonLen (normSegs (splitSegs base) []) (normSegs (splitSegs target) []))
        ".." ++
      (normSegs (splitSegs target) []).drop
        (commonLen (normSegs (splitSegs base) []) (normSegs (splitSegs target) [])))

/-- Outcome of the custom-workspace branch: the validation error is returned
before any `fs.mkdir`; otherwise the branch proceeds to create the resolved
directory. -/
inductive WorkspaceDecision where
  | validationError : WorkspaceDecision
  | createDir (dir : String) : WorkspaceDecision
deriving DecidableEq, Repr

/-- Custom-workspace branch of `executePythonCode` (lines 84-110): an
absolute custom path is normalized and trusted; a relative one is resolved
against `path.resolve(process.cwd())` and rejected when its form relative to
that base starts with `..` or is absolute. -/
def resolveCustomWorkspace (cwd workspace : String) : WorkspaceDecision :=
  if pathIsAbsolute workspace then .createDir (pathNormalize workspace)
  else if strStartsWith (pathRelative (pathNormalize cwd)
        (pathResolve (pathNormalize cwd) workspace)) ".." = true ∨
      pathIsAbsolute (pathRelative (pathNormalize cwd)
        (pathResolve (pathNormalize cwd) workspace)) = true then
    .validationError
  else .createDir (pathResolve (pathNormalize cwd) workspace)

/-! ## Binary-safe embedding of the caller's source
(`generatePythonWrapper`, python-executor.ts lines 665-683)

The wrapper embeds `Buffer.from(userCode, 'utf8').toString('base64')` inside
the fixed single-quoted fragment `_py_executor_base64.b64decode('...')`; the
shim base64-decodes and `utf-8`-decodes it before `exec`.  Source bytes are
naturals below 256; the encoder and the (padded-input) decoder are modelled
in full. -/

/-- The base64 alphabet, index order. -/
def b64Alphabet : List Char :=
  "ABCDEFGHIJKLMNOPQRSTUVWXYZabcdefghijklmnopqrstuvwxyz0123456789+/".toList

/-- The alphabet character of a 6-bit group. -/
def encChar (n : Nat) : Char := b64Alphabet.getD n 'A'

/-- Index scan for decoding one character. -/
def decCharAux : List Char → Nat → Char → Option Nat
  | [], _, _ => none
  | a :: rest, i, c => if a = c then some i else decCharAux rest (i + 1) c

/-- The 6-bit group of an alphabet character. -/
def decChar (c : Char) : Option Nat := decCharAux b64Alphabet 0 c

/-- Standard base64 of a byte list (`Buffer.toString('base64')`). -/
def base64EncodeL : List Nat → List Char
  | [] => []
  | [a] => [encChar (a / 4), encChar (a % 4 * 16), '=', '=']
  | [a, b] => [encChar (a / 4), encChar (a % 4 * 16 + b / 16), encChar (b % 16 * 4), '=']
  | a :: b :: c :: rest =>
    [encChar (a / 4), encChar (a % 4 * 16 + b / 16), encChar (b % 16 * 4 + c / 64),
      encChar (c % 64)] ++ base64EncodeL rest

/-- Base64 decoding of padded input (`base64.b64decode` on the shim side);
`none` models a raised `binascii.Error`. -/
def base64DecodeL : List Char → Option (List Nat)
  | [] => some []
  | c1 :: c2 :: c3 :: c4 :: rest =>
    if c3 = '=' ∧ c4 = '=' ∧ rest = [] then
      match decChar c1, decChar c2 with
      | some n1, some n2 => some [n1 * 4 + n2 / 16]
      | _, _ => none
    else if c4 = '=' ∧ rest = [] then
      match decChar c1, decChar c2, decChar c3 with
      | some n1, some n2, some n3 =>
        some [n1 * 4 + n2 / 16, n2 % 16 * 16 + n3 / 4]
      | _, _, _ => none
    else
      match decChar c1, decChar c2, decChar c3, decChar c4, base64DecodeL rest with
      | some n1, some n2, some n3, some n4, some tail =>
        some ([n1 * 4 + n2 / 16, n2 % 16 * 16 + n3 / 4, n3 % 4 * 64 + n4] ++ tail)
      | _, _, _, _, _ => none
  | _ => none

/-- `Buffer.from(userCode, 'utf8').toString('base64')`, the text interpolated
into the wrapper between the fixed single quotes. -/
def encodeUserCode (code : List Nat) : String := String.mk (base64EncodeL code)

end PyExec

namespace PyExec

/-! ## Theorems -/

theorem startsWithL_refl_append (sub rest : List Char) :
    startsWithL (sub ++ rest) sub = true := by
  induction sub with
  | nil => cases rest <;> simp [startsWithL]
  | cons a t ih => simp [startsWithL, ih]

theorem containsL_of_startsWithL (l sub : List Char) (h : startsWithL l sub = true) :
    containsL l sub = true := by
  cases l with
  | nil => simpa [containsL] using h
  | cons a t => simp [containsL, h]

theorem containsL_append_left (pre l sub : List Char) (h : containsL l sub = true) :
    containsL (pre ++ l) sub = true := by
  induction pre with
  | nil => simpa using h
  | cons a t ih => simp [containsL, ih]

theorem strContains_of_middle (a b c : String) :
    strContains (a ++ b ++ c) b = true := by
  have hdata : (a ++ b ++ c).toList = a.toList ++ (b.toList ++ c.toList) := by
    simp [String.toList, String.data_append, List.append_assoc]
  unfold strContains
  rw [hdata]
  exact containsL_append_left _ _ _
    (containsL_of_startsWithL _ _ (startsWithL_refl_append _ _))

theorem allowLoop_cons (resolvePath : String → Option String) (win32 : Bool)
    (sep rp d : String) (rest : List String) (nd : String)
    (hnd : normForm resolvePath win32 d = some nd) :
    allowLoop resolvePath win32 sep rp (d :: rest) =
      if rp = nd ∨ startsWithL rp.toList (nd ++ sep).toList = true then some true
      else allowLoop resolvePath win32 sep rp rest := by
  simp [allowLoop, hnd]

theorem allowLoop_isSome (resolvePath : String → Option String) (win32 : Bool)
    (sep rp : String) (dirs : List String)
    (hd : ∀ d ∈ dirs, (normForm resolvePath win32 d).isSome = true) :
    (allowLoop resolvePath win32 sep rp dirs).isSome = true := by
  induction dirs with
  | nil => simp [allowLoop]
  | cons d rest ih =>
    obtain ⟨nd, hnd⟩ := Option.isSome_iff_exists.mp (hd d (List.mem_cons_self d rest))
    rw [allowLoop_cons resolvePath win32 sep rp d rest nd hnd]
    by_cases hm : rp = nd ∨ startsWithL rp.toList (nd ++ sep).toList = true
    · rw [if_pos hm]
      rfl
    · rw [if_neg hm]
      exact ih (fun x hx => hd x (List.mem_cons_of_mem d hx))

theorem allowLoop_true_iff (resolvePath : String → Option String) (win32 : Bool)
    (sep rp : String) (dirs : List String)
    (hd : ∀ d ∈ dirs, (normForm resolvePath win32 d).isSome = true) :
    allowLoop resolvePath win32 sep rp dirs = some true ↔
      ∃ d ∈ dirs, ∃ nd, normForm resolvePath win32 d = some nd ∧
        (rp = nd ∨ startsWithL rp.toList (nd ++ sep).toList = true) := by
  induction dirs with
  | nil => simp [allowLoop]
  | cons d rest ih =>
    obtain ⟨nd, hnd⟩ := Option.isSome_iff_exists.mp (hd d (List.mem_cons_self d rest))
    have hrest := ih (fun x hx => hd x (List.mem_cons_of_mem d hx))
    rw [allowLoop_cons resolvePath win32 sep rp d rest nd hnd]
    by_cases hm : rp = nd ∨ startsWithL rp.toList (nd ++ sep).toList = true
    · rw [if_pos hm]
      constructor
      · intro _
        exact ⟨d, List.mem_cons_self d rest, nd, hnd, hm⟩
      · intro _
        rfl
    · rw [if_neg hm, hrest]
      constructor
      · rintro ⟨x, hx, nx, hnx, hc⟩
        exact ⟨x, List.mem_cons_of_mem d hx, nx, hnx, hc⟩
      · rintro ⟨x, hx, nx, hnx, hc⟩
        rcases List.mem_cons.mp hx with rfl | hx'
        · exfalso
          rw [hnd] at hnx
          injection hnx with e
          subst e
          exact hm hc
        · exact ⟨x, hx', nx, hnx, hc⟩

/-- C1: for a candidate path checked by the confinement shim, provided the
allowed roots themselves resolve, the path is allowed if and only if its
symlink-resolved, `~`-expanded, case-folded-on-Windows form equals the
resolved form of one of the allowed roots or starts with that root followed
by the path separator; a mere string prefix without the separator boundary is
not a match. -/
theorem c1_path_allowed_iff (resolvePath : String → Option String) (win32 : Bool)
    (sep : String) (dirs : List String) (p np : String)
    (hp : normForm resolvePath win32 p = some np)
    (hd : ∀ d ∈ dirs, (normForm resolvePath win32 d).isSome = true) :
    is_path_allowed resolvePath win32 sep dirs (.path p) = true ↔
      ∃ d ∈ dirs, ∃ nd, normForm resolvePath win32 d = some nd ∧
        (np = nd ∨ startsWithL np.toList (nd ++ sep).toList = true) := by
  have hiff := allowLoop_true_iff resolvePath win32 sep np dirs hd
  have hsome := allowLoop_isSome resolvePath win32 sep np dirs hd
  unfold is_path_allowed
  simp only [osFspath]
  rw [hp]
  rcases hall : allowLoop resolvePath win32 sep np dirs with _ | b
  · rw [hall] at hsome
    simp at hsome
  · rw [hall] at hiff
    cases b
    · rw [← hiff]
      simp [hall]
    · rw [← hiff]
      simp [hall]

/-- Witness for C1: with an identity resolution, roots `/tmp/x` and
`/scratch`, a nested path under `/tmp/x` is allowed while `/tmp/xyz`, which
shares only a string prefix with `/tmp/x`, is denied. -/
theorem c1_witness :
    is_path_allowed (fun s => some s) false "/" ["/tmp/x", "/scratch"]
        (.path "/tmp/x/data.txt") = true ∧
    is_path_allowed (fun s => some s) false "/" ["/tmp/x", "/scratch"]
        (.path "/tmp/xyz") = false := by
  constructor
  · exact (c1_path_allowed_iff (fun s => some s) false "/" ["/tmp/x", "/scratch"]
      "/tmp/x/data.txt" "/tmp/x/data.txt" rfl (by decide)).mpr
      ⟨"/tmp/x", by simp, "/tmp/x", rfl, Or.inr (by decide)⟩
  · have h := c1_path_allowed_iff (fun s => some s) false "/" ["/tmp/x", "/scratch"]
      "/tmp/xyz" "/tmp/xyz" rfl (by decide)
    rw [Bool.eq_false_iff]
    intro htrue
    obtain ⟨d, hdm, nd, hnd, hc⟩ := h.mp htrue
    rcases List.mem_cons.mp hdm with rfl | hdm'
    · simp only [normForm, foldCase, Option.map_some] at hnd
      injection hnd with e
      subst e
      rcases hc with hc | hc
      · exact absurd hc (by decide)
      · exact absurd hc (by decide)
    · rcases List.mem_cons.mp hdm' with rfl | hdm''
      · simp only [normForm, foldCase, Option.map_some] at hnd
        injection hnd with e
        subst e
        rcases hc with hc | hc
        · exact absurd hc (by decide)
        · exact absurd hc (by decide)
      · simp at hdm''

/-- C10: `_safe_open` passes the integer file descriptors 0, 1, 2 straight to
the original `open` with no allow-list check; for every other argument the
original `open` is invoked (after the check) exactly when `_is_path_allowed`
accepts it, and a `PermissionError` is raised, without invoking the original
`open`, exactly when it refuses. -/
theorem c10_safe_open_behaviour (resolvePath : String → Option String)
    (win32 : Bool) (sep : String) (dirs : List String) :
    (∀ n : Int, n = 0 ∨ n = 1 ∨ n = 2 →
        safe_open resolvePath win32 sep dirs (.fd n) = .callOriginal false) ∧
    (∀ file : OpenArg, ¬(file = .fd 0 ∨ file = .fd 1 ∨ file = .fd 2) →
        (safe_open resolvePath win32 sep dirs file = .callOriginal true ↔
          is_path_allowed resolvePath win32 sep dirs file = true) ∧
        (safe_open resolvePath win32 sep dirs file = .raisePermissionError ↔
          is_path_allowed resolvePath win32 sep dirs file = false)) := by
  constructor
  · rintro n (rfl | rfl | rfl) <;> simp [safe_open]
  · intro file hf
    cases hb : is_path_allowed resolvePath win32 sep dirs file <;>
      simp [safe_open, hf, hb]

/-- Witness for C10: stdin descriptor 1 bypasses the check, an in-root path
opens, an out-of-root path raises. -/
theorem c10_witness :
    safe_open (fun s => some s) false "/" ["/ws"] (.fd 1) = .callOriginal false ∧
    safe_open (fun s => some s) false "/" ["/ws"] (.path "/ws/a.txt") =
      .callOriginal true ∧
    safe_open (fun s => some s) false "/" ["/ws"] (.path "/etc/passwd") =
      .raisePermissionError := by
  have h := c10_safe_open_behaviour (fun s => some s) false "/" ["/ws"]
  refine ⟨h.1 1 (Or.inr (Or.inl rfl)), ?_, ?_⟩
  · exact ((h.2 (.path "/ws/a.txt") (by simp)).1).mpr (by decide)
  · exact ((h.2 (.path "/etc/passwd") (by simp)).2).mpr (by decide)

theorem startsWithL_refl (l : List Char) : startsWithL l l = true := by
  induction l with
  | nil => rfl
  | cons a t ih => simp [startsWithL, ih]

theorem startsWithL_append_of (l m sub : List Char) (h : startsWithL l sub = true) :
    startsWithL (l ++ m) sub = true := by
  induction sub generalizing l with
  | nil => cases l ++ m <;> simp [startsWithL]
  | cons b bs ih =>
    cases l with
    | nil => simp [startsWithL] at h
    | cons a t =>
      simp [startsWithL] at h ⊢
      exact ⟨h.1, ih t h.2⟩

theorem containsL_append_r (l m sub : List Char) (h : containsL l sub = true) :
    containsL (l ++ m) sub = true := by
  induction l with
  | nil =>
    cases sub with
    | nil => exact containsL_of_startsWithL _ _ (by cases m <;> simp [startsWithL])
    | cons b bs => simp [containsL, startsWithL] at h
  | cons a t ih =>
    simp only [containsL, Bool.or_eq_true] at h
    rcases h with h | h
    · exact containsL_of_startsWithL _ _ (startsWithL_append_of _ _ _ h)
    · simp only [List.cons_append, containsL, Bool.or_eq_true]
      exact Or.inr (ih h)

theorem strContains_self (s : String) : strContains s s = true :=
  containsL_of_startsWithL _ _ (startsWithL_refl _)

theorem strContains_append_left (a b sub : String) (h : strContains a sub = true) :
    strContains (a ++ b) sub = true := by
  unfold strContains at h ⊢
  rw [show (a ++ b).toList = a.toList ++ b.toList by simp [String.toList, String.data_append]]
  exact containsL_append_r _ _ _ h

theorem strContains_append_right (a b sub : String) (h : strContains b sub = true) :
    strContains (a ++ b) sub = true := by
  unfold strContains at h ⊢
  rw [show (a ++ b).toList = a.toList ++ b.toList by simp [String.toList, String.data_append]]
  exact containsL_append_left _ _ _ h

/-- C4: `KILL_GRACE_PERIOD_MS` is the fixed 5000 ms grace period; a deadline
firing while armed sends SIGTERM, sets the timed-out flag and arms the
grace-period timer with that fixed delay; a grace firing while armed sends
SIGKILL exactly when the process has not exited (`exitCode` and `signalCode`
both null); and both the stream-close and the spawn-error terminal handlers
disarm both timers. -/
theorem c4_two_stage_kill (s : RunnerState) :
    KILL_GRACE_PERIOD_MS = 5000 ∧
    (s.deadlineArmed = true →
      runnerStep s .deadlineFires =
        { s with deadlineArmed := false
                 isTimedOut := true
                 signalsSent := s.signalsSent ++ [.SIGTERM]
                 killArmed := true
                 killDelayMs := some 5000 }) ∧
    (s.killArmed = true →
      ((runnerStep s .graceFires).signalsSent = s.signalsSent ++ [.SIGKILL] ↔
        s.exitCode = none ∧ s.signalCode = none)) ∧
    (runnerStep s .streamsClose).deadlineArmed = false ∧
    (runnerStep s .streamsClose).killArmed = false ∧
    (runnerStep s .spawnError).deadlineArmed = false ∧
    (runnerStep s .spawnError).killArmed = false := by
  refine ⟨rfl, ?_, ?_, rfl, rfl, rfl, rfl⟩
  · intro h
    simp [runnerStep, h, KILL_GRACE_PERIOD_MS]
  · intro h
    by_cases hx : s.exitCode = none ∧ s.signalCode = none
    · simp [runnerStep, h, hx]
    · simp [runnerStep, h, hx]

/-- Witness for C4: from a fresh 30000 ms run, the deadline firing sends
SIGTERM and arms a 5000 ms grace timer; the grace firing then sends SIGKILL
since the process has not exited. -/
theorem c4_witness :
    (initialRunnerState 30000).deadlineArmed = true ∧
    (runnerStep (initialRunnerState 30000) .deadlineFires).killDelayMs = some 5000 ∧
    (runnerStep (runnerStep (initialRunnerState 30000) .deadlineFires)
        .graceFires).signalsSent = [.SIGTERM, .SIGKILL] := by
  have h1 := (c4_two_stage_kill (initialRunnerState 30000)).2.1 (by decide)
  have h2 := (c4_two_stage_kill
    (runnerStep (initialRunnerState 30000) .deadlineFires)).2.2.1 (by decide)
  refine ⟨by decide, ?_, ?_⟩
  · rw [h1]
  · rw [h2.mpr ⟨by decide, by decide⟩]
    decide

/-- C6: a timed-out execution is always reported as a failure whose text
names the configured timeout in milliseconds and contains the captured
standard output and standard error. -/
theorem c6_timeout_failure_report (timeout_ms : Nat) (stdout stderr : String)
    (exitCode : Option Int) :
    (closeResult true timeout_ms stdout stderr exitCode).isError = true ∧
    ∃ txt ∈ (closeResult true timeout_ms stdout stderr exitCode).content,
      strContains txt (TIMEOUT_ERROR_PREFIX ++ " " ++ toString timeout_ms ++ "ms") = true ∧
      strContains txt stdout = true ∧
      strContains txt stderr = true := by
  refine ⟨rfl, ?_⟩
  refine ⟨TIMEOUT_ERROR_PREFIX ++ " " ++ toString timeout_ms ++ "ms" ++
    "\n\nPartial output:\n" ++ stdout ++ "\n" ++ stderr, by simp [closeResult], ?_, ?_, ?_⟩
  · exact strContains_append_left _ _ _ (strContains_append_left _ _ _
      (strContains_append_left _ _ _ (strContains_append_left _ _ _
        (strContains_self _))))
  · exact strContains_append_left _ _ _ (strContains_append_left _ _ _
      (strContains_append_right _ _ _ (strContains_self _)))
  · exact strContains_append_right _ _ _ (strContains_self _)

theorem decChar_encChar : ∀ n, n < 64 → decChar (encChar n) = some n := by decide

theorem encChar_mem_alphabet (n : Nat) : encChar n ∈ b64Alphabet := by
  by_cases h : n < 64
  · revert h
    revert n
    decide
  · unfold encChar
    rw [List.getD_eq_default]
    · decide
    · have hlen : b64Alphabet.length = 64 := by decide
      omega

theorem encChar_ne_pad (n : Nat) : encChar n ≠ '=' := by
  have hmem := encChar_mem_alphabet n
  intro he
  rw [he] at hmem
  revert hmem
  decide

theorem base64EncodeL_chars :
    ∀ (bs : List Nat), ∀ ch ∈ base64EncodeL bs, ch ∈ b64Alphabet ∨ ch = '='
  | [] => by simp [base64EncodeL]
  | [a] => by
    simp only [base64EncodeL, List.mem_cons, List.not_mem_nil, or_false]
    rintro ch (rfl | rfl | rfl | rfl)
    · exact Or.inl (encChar_mem_alphabet _)
    · exact Or.inl (encChar_mem_alphabet _)
    · exact Or.inr rfl
    · exact Or.inr rfl
  | [a, b] => by
    simp only [base64EncodeL, List.mem_cons, List.not_mem_nil, or_false]
    rintro ch (rfl | rfl | rfl | rfl)
    · exact Or.inl (encChar_mem_alphabet _)
    · exact Or.inl (encChar_mem_alphabet _)
    · exact Or.inl (encChar_mem_alphabet _)
    · exact Or.inr rfl
  | a :: b :: c :: rest => by
    intro ch hch
    rw [show base64EncodeL (a :: b :: c :: rest) =
        [encChar (a / 4), encChar (a % 4 * 16 + b / 16), encChar (b % 16 * 4 + c / 64),
          encChar (c % 64)] ++ base64EncodeL rest from rfl] at hch
    rcases List.mem_append.mp hch with hm | hm
    · simp only [List.mem_cons, List.not_mem_nil, or_false] at hm
      rcases hm with rfl | rfl | rfl | rfl <;> exact Or.inl (encChar_mem_alphabet _)
    · exact base64EncodeL_chars rest ch hm

theorem base64_roundtrip :
    ∀ (bs : List Nat), (∀ b ∈ bs, b < 256) →
      base64DecodeL (base64EncodeL bs) = some bs
  | [], _ => rfl
  | [a], h => by
    have ha : a < 256 := h a (by simp)
    show base64DecodeL [encChar (a / 4), encChar (a % 4 * 16), '=', '='] = some [a]
    unfold base64DecodeL
    rw [if_pos ⟨rfl, rfl, rfl⟩]
    rw [decChar_encChar (a / 4) (by omega), decChar_encChar (a % 4 * 16) (by omega)]
    show some [a / 4 * 4 + a % 4 * 16 / 16] = some [a]
    rw [show a / 4 * 4 + a % 4 * 16 / 16 = a by omega]
  | [a, b], h => by
    have ha : a < 256 := h a (by simp)
    have hb : b < 256 := h b (by simp)
    show base64DecodeL
        [encChar (a / 4), encChar (a % 4 * 16 + b / 16), encChar (b % 16 * 4), '='] =
      some [a, b]
    unfold base64DecodeL
    rw [if_neg (fun hcon => encChar_ne_pad _ hcon.1), if_pos ⟨rfl, rfl⟩]
    rw [decChar_encChar (a / 4) (by omega),
      decChar_encChar (a % 4 * 16 + b / 16) (by omega),
      decChar_encChar (b % 16 * 4) (by omega)]
    show some [a / 4 * 4 + (a % 4 * 16 + b / 16) / 16,
      (a % 4 * 16 + b / 16) % 16 * 16 + b % 16 * 4 / 4] = some [a, b]
    rw [show a / 4 * 4 + (a % 4 * 16 + b / 16) / 16 = a by omega,
      show (a % 4 * 16 + b / 16) % 16 * 16 + b % 16 * 4 / 4 = b by omega]
  | a :: b :: c :: rest, h => by
    have ha : a < 256 := h a (by simp)
    have hb : b < 256 := h b (by simp)
    have hc : c < 256 := h c (by simp)
    have ih := base64_roundtrip rest (fun x hx => h x (by simp [hx]))
    show base64DecodeL (encChar (a / 4) :: encChar (a % 4 * 16 + b / 16) ::
      encChar (b % 16 * 4 + c / 64) :: encChar (c % 64) :: base64EncodeL rest) =
      some (a :: b :: c :: rest)
    unfold base64DecodeL
    rw [if_neg (fun hcon => encChar_ne_pad _ hcon.1),
      if_neg (fun hcon => encChar_ne_pad _ hcon.1)]
    rw [decChar_encChar (a / 4) (by omega),
      decChar_encChar (a % 4 * 16 + b / 16) (by omega),
      decChar_encChar (b % 16 * 4 + c / 64) (by omega),
      decChar_encChar (c % 64) (by omega), ih]
    show some ([a / 4 * 4 + (a % 4 * 16 + b / 16) / 16,
      (a % 4 * 16 + b / 16) % 16 * 16 + (b % 16 * 4 + c / 64) / 4,
      (b % 16 * 4 + c / 64) % 4 * 64 + c % 64] ++ rest) = some (a :: b :: c :: rest)
    rw [show a / 4 * 4 + (a % 4 * 16 + b / 16) / 16 = a by omega,
      show (a % 4 * 16 + b / 16) % 16 * 16 + (b % 16 * 4 + c / 64) / 4 = b by omega,
      show (b % 16 * 4 + c / 64) % 4 * 64 + c % 64 = c by omega]
    rfl

/-- C8: the wrapper embeds the caller's source bytes base64-encoded between
fixed quotes; decoding the embedded text recovers exactly the original bytes
(decode after encode is the identity), and every embedded character is from
the base64 alphabet or padding — never a quote, backslash, or newline, so
the source cannot break out of the fragment. -/
theorem c8_base64_embedding (code : List Nat) (h : ∀ b ∈ code, b < 256) :
    base64DecodeL (encodeUserCode code).toList = some code ∧
    (∀ ch ∈ (encodeUserCode code).toList, ch ∈ b64Alphabet ∨ ch = '=') ∧
    (∀ ch ∈ (encodeUserCode code).toList,
      ch ≠ '\'' ∧ ch ≠ '"' ∧ ch ≠ '\\' ∧ ch ≠ '\n') := by
  have hlist : (encodeUserCode code).toList = base64EncodeL code := rfl
  rw [hlist]
  refine ⟨base64_roundtrip code h, base64EncodeL_chars code, ?_⟩
  intro ch hch
  rcases base64EncodeL_chars code ch hch with hm | rfl
  · have : ∀ x ∈ b64Alphabet, x ≠ '\'' ∧ x ≠ '"' ∧ x ≠ '\\' ∧ x ≠ '\n' := by decide
    exact this ch hm
  · refine ⟨by decide, by decide, by decide, by decide⟩

/-- Witness for C8 on the UTF-8 bytes of `print(1)`. -/
theorem c8_witness :
    (∀ b ∈ [112, 114, 105, 110, 116, 40, 49, 41], b < 256) ∧
    base64DecodeL (encodeUserCode [112, 114, 105, 110, 116, 40, 49, 41]).toList =
      some [112, 114, 105, 110, 116, 40, 49, 41] :=
  ⟨by decide,
   (c8_base64_embedding [112, 114, 105, 110, 116, 40, 49, 41] (by decide)).1⟩

theorem commonLen_le_left (a b : List String) : commonLen a b ≤ a.length := by
  induction a generalizing b with
  | nil => cases b <;> simp [commonLen]
  | cons x xs ih =>
    cases b with
    | nil => simp [commonLen]
    | cons y ys =>
      by_cases hxy : x = y
      · have := ih ys
        simp [commonLen, hxy]
        omega
      · simp [commonLen, hxy]

theorem commonLen_full (a b : List String) (h : commonLen a b = a.length) :
    ∃ suffix, b = a ++ suffix := by
  induction a generalizing b with
  | nil => exact ⟨b, rfl⟩
  | cons x xs ih =>
    cases b with
    | nil => simp [commonLen] at h
    | cons y ys =>
      by_cases hxy : x = y
      · simp only [commonLen, hxy, if_true, List.length_cons, Nat.add_right_cancel_iff] at h
        obtain ⟨suffix, hs⟩ := ih ys h
        exact ⟨suffix, by rw [hs, hxy]; simp⟩
      · simp [commonLen, hxy] at h

theorem joinRel_dotdot_starts (rest : List String) :
    strStartsWith (joinRel (".." :: rest)) ".." = true := by
  cases rest with
  | nil => decide
  | cons r rs =>
    show strStartsWith (".." ++ "/" ++ joinRel (r :: rs)) ".." = true
    unfold strStartsWith
    rw [show (".." ++ "/" ++ joinRel (r :: rs)).toList =
        ("..".toList ++ "/".toList) ++ (joinRel (r :: rs)).toList by
      simp [String.toList, String.data_append]]
    exact startsWithL_append_of _ _ _
      (startsWithL_append_of _ _ _ (startsWithL_refl _))

theorem pathRelative_no_dotdot_within (base target : String)
    (h : ¬strStartsWith (pathRelative base target) ".." = true) :
    ∃ suffix, normSegs (splitSegs target) [] = normSegs (splitSegs base) [] ++ suffix := by
  rcases hn : (normSegs (splitSegs base) []).length -
      commonLen (normSegs (splitSegs base) []) (normSegs (splitSegs target) []) with _ | m
  · have hle := commonLen_le_left (normSegs (splitSegs base) [])
      (normSegs (splitSegs target) [])
    have hk : commonLen (normSegs (splitSegs base) []) (normSegs (splitSegs target) []) =
        (normSegs (splitSegs base) []).length := by omega
    obtain ⟨suffix, hs⟩ := commonLen_full _ _ hk
    exact ⟨(normSegs (splitSegs target) []).drop
      (commonLen (normSegs (splitSegs base) []) (normSegs (splitSegs target) [])), by
      conv_lhs => rw [hs]
      rw [hk, hs]
      simp⟩
  · exfalso
    apply h
    unfold pathRelative
    rw [hn, List.replicate_succ, List.cons_append]
    exact joinRel_dotdot_starts _

/-- C7: a relative custom workspace path is resolved against the process's
working directory; the branch returns the validation error, before any
directory creation, exactly when the resolved path's form relative to that
base starts with `..` or is itself absolute, and otherwise proceeds to create
the resolved directory, whose normalized segments then extend the base's
(the path stays within the base directory). -/
theorem c7_relative_workspace (cwd workspace : String)
    (hrel : pathIsAbsolute workspace = false) :
    (resolveCustomWorkspace cwd workspace = .validationError ↔
      (strStartsWith (pathRelative (pathNormalize cwd)
          (pathResolve (pathNormalize cwd) workspace)) ".." = true ∨
        pathIsAbsolute (pathRelative (pathNormalize cwd)
          (pathResolve (pathNormalize cwd) workspace)) = true)) ∧
    (resolveCustomWorkspace cwd workspace =
        .createDir (pathResolve (pathNormalize cwd) workspace) ↔
      ¬(strStartsWith (pathRelative (pathNormalize cwd)
          (pathResolve (pathNormalize cwd) workspace)) ".." = true ∨
        pathIsAbsolute (pathRelative (pathNormalize cwd)
          (pathResolve (pathNormalize cwd) workspace)) = true)) ∧
    (∀ d, resolveCustomWorkspace cwd workspace = .createDir d →
      ∃ suffix, normSegs (splitSegs d) [] =
        normSegs (splitSegs (pathNormalize cwd)) [] ++ suffix) := by
  by_cases hcond : (strStartsWith (pathRelative (pathNormalize cwd)
        (pathResolve (pathNormalize cwd) workspace)) ".." = true ∨
      pathIsAbsolute (pathRelative (pathNormalize cwd)
        (pathResolve (pathNormalize cwd) workspace)) = true)
  · refine ⟨?_, ?_, ?_⟩
    · simp [resolveCustomWorkspace, hrel, hcond]
    · simp [resolveCustomWorkspace, hrel, hcond]
    · intro d hd
      simp [resolveCustomWorkspace, hrel, hcond] at hd
  · refine ⟨?_, ?_, ?_⟩
    · simp [resolveCustomWorkspace, hrel, hcond]
    · simp [resolveCustomWorkspace, hrel, hcond]
    · intro d hd
      simp only [resolveCustomWorkspace, hrel, Bool.false_eq_true, if_false,
        hcond, ite_false] at hd
      injection hd with e
      subst e
      exact pathRelative_no_dotdot_within (pathNormalize cwd)
        (pathResolve (pathNormalize cwd) workspace)
        (fun hc => hcond (Or.inl hc))

/-- Witness for C7: under base `/home/user`, the relative workspace
`proj/data` is created at its resolved location while `../secrets` is
rejected. -/
theorem c7_witness :
    pathIsAbsolute "proj/data" = false ∧
    resolveCustomWorkspace "/home/user" "proj/data" =
      .createDir "/home/user/proj/data" ∧
    pathIsAbsolute "../secrets" = false ∧
    resolveCustomWorkspace "/home/user" "../secrets" = .validationError := by
  have h1 := (c7_relative_workspace "/home/user" "proj/data" (by decide)).2.1
  have h2 := (c7_relative_workspace "/home/user" "../secrets" (by decide)).1
  refine ⟨by decide, ?_, by decide, ?_⟩
  · have hc := h1.mpr (by decide)
    rw [show pathResolve (pathNormalize "/home/user") "proj/data" =
      "/home/user/proj/data" by decide] at hc
    exact hc
  · exact h2.mpr (Or.inl (by decide))

/-- C9: with an explicit numeric `timeout_ms`, schema validation can succeed
only if the value is an integer between 1000 and 300000 inclusive; any other
numeric value makes `executePythonCode` return the validation error before
any directory or subprocess step. -/
theorem c9_timeout_range (r : RawRequest) (q : Rat) (hq : r.timeout_ms = .num q) :
    ((∃ p, parseRequest r = some p) →
      q.den = 1 ∧ (1000 : Rat) ≤ q ∧ q ≤ (300000 : Rat)) ∧
    (¬(q.den = 1 ∧ (1000 : Rat) ≤ q ∧ q ≤ (300000 : Rat)) →
      executePythonCodeEntry r = .invalidArgs) := by
  have hval : validTimeoutNum q = true ↔
      (q.den = 1 ∧ (1000 : Rat) ≤ q ∧ q ≤ (300000 : Rat)) := by
    unfold validTimeoutNum
    simp [and_assoc]
  constructor
  · rintro ⟨p, hp⟩
    unfold parseRequest at hp
    by_cases hc : (trimStr r.code).length = 0
    · simp [hc] at hp
    · rw [if_neg hc, hq] at hp
      by_cases hv : validTimeoutNum q
      · exact hval.mp hv
      · simp [parseTimeout, hv] at hp
  · intro hbad
    have hv : validTimeoutNum q = false := by
      cases hb : validTimeoutNum q
      · rfl
      · exact absurd (hval.mp hb) hbad
    unfold executePythonCodeEntry parseRequest
    by_cases hc : (trimStr r.code).length = 0
    · simp [hc]
    · rw [if_neg hc, hq]
      simp [parseTimeout, hv]

/-- Witness for C9: a 500 ms request (positive, integral, but under the 1000
ms floor) is rejected as a validation error. -/
theorem c9_witness :
    (RawRequest.mk "print(2+2)" none (.num 500) none none none).timeout_ms =
      .num 500 ∧
    ¬((500 : Rat).den = 1 ∧ (1000 : Rat) ≤ (500 : Rat) ∧
      (500 : Rat) ≤ (300000 : Rat)) ∧
    executePythonCodeEntry (RawRequest.mk "print(2+2)" none (.num 500) none none none) =
      .invalidArgs := by
  have hbad : ¬((500 : Rat).den = 1 ∧ (1000 : Rat) ≤ (500 : Rat) ∧
      (500 : Rat) ≤ (300000 : Rat)) := by
    rintro ⟨-, h, -⟩
    norm_num at h
  exact ⟨rfl, hbad,
    (c9_timeout_range (RawRequest.mk "print(2+2)" none (.num 500) none none none)
      500 rfl).2 hbad⟩

theorem envEntry_eq_some (h : String → Option String) (a : String) (p : String × String)
    (he : envEntry h a = some p) : p.1 = a ∧ h a = some p.2 ∧ p.2 ≠ "" := by
  unfold envEntry at he
  rcases hv : h a with _ | v
  · rw [hv] at he
    simp at he
  · rw [hv] at he
    change (if v = "" then none else some (a, v)) = some p at he
    by_cases hvv : v = ""
    · rw [if_pos hvv] at he
      simp at he
    · rw [if_neg hvv] at he
      injection he with e
      subst e
      exact ⟨rfl, rfl, hvv⟩

theorem lookupEnvVar_setEnvVar_self (e : List (String × String)) (k v : String) :
    lookupEnvVar (setEnvVar e k v) k = some v := by
  unfold setEnvVar
  induction e with
  | nil => simp [lookupEnvVar]
  | cons p rest ih =>
    by_cases hp : p.1 = k
    · simp only [List.filter_cons]
      rw [show (!(p.1 == k)) = false by simp [hp]]
      simpa using ih
    · simp only [List.filter_cons]
      rw [show (!(p.1 == k)) = true by simp [hp]]
      simpa [lookupEnvVar, hp] using ih

theorem lookupEnvVar_setEnvVar_other (e : List (String × String)) (k v q : String)
    (hne : k ≠ q) : lookupEnvVar (setEnvVar e k v) q = lookupEnvVar e q := by
  unfold setEnvVar
  induction e with
  | nil => simp [lookupEnvVar, hne]
  | cons p rest ih =>
    by_cases hp : p.1 = k
    · simp only [List.filter_cons]
      rw [show (!(p.1 == k)) = false by simp [hp]]
      have hpq : p.1 ≠ q := by
        rw [hp]
        exact hne
      simp only [lookupEnvVar, hpq, if_false]
      exact ih
    · simp only [List.filter_cons]
      rw [show (!(p.1 == k)) = true by simp [hp]]
      by_cases hpq : p.1 = q
      · simp [lookupEnvVar, hpq]
      · simpa [lookupEnvVar, hpq] using ih

theorem lookupEnvVar_filterMap_envEntry (l : List String) (h : String → Option String)
    (k : String) :
    lookupEnvVar (l.filterMap (envEntry h)) k =
      if k ∈ l then (envEntry h k).map Prod.snd else none := by
  induction l with
  | nil => simp [lookupEnvVar]
  | cons a t ih =>
    rcases he : envEntry h a with _ | p
    · simp only [List.filterMap_cons, he]
      rw [ih]
      by_cases hk : k = a
      · subst hk
        by_cases hm : k ∈ t
        · simp [hm]
        · simp [hm, he]
      · simp [List.mem_cons, hk]
    · obtain ⟨hp1, _, _⟩ := envEntry_eq_some h a p he
      simp only [List.filterMap_cons, he]
      by_cases hk : k = a
      · subst hk
        simp [lookupEnvVar, hp1, he]
      · have hp1k : p.1 ≠ k := by
          rw [hp1]
          exact fun e => hk e.symm
        simp only [lookupEnvVar, hp1k, if_false]
        rw [ih]
        simp [List.mem_cons, hk]

/-- C3: the guest environment depends only on the whitelisted host variables
and the isolated packages directory (two hosts agreeing on the whitelist give
identical child environments); `PYTHONPATH` is never whitelisted and is set
exactly to the packages directory; every empty-valued whitelisted entry is
dropped; and every variable of the minimal environment is a whitelisted one
carrying its (non-empty) host value. -/
theorem c3_child_environment (win32 : Bool) (h1 h2 : String → Option String)
    (packagesDir : String)
    (hagree : ∀ k ∈ whitelist win32, h1 k = h2 k) :
    childEnv win32 h1 packagesDir = childEnv win32 h2 packagesDir ∧
    lookupEnvVar (childEnv win32 h1 packagesDir) "PYTHONPATH" = some packagesDir ∧
    "PYTHONPATH" ∉ whitelist win32 ∧
    (∀ k, h1 k = some "" → lookupEnvVar (buildMinimalEnvironment win32 h1) k = none) ∧
    (∀ k v, lookupEnvVar (buildMinimalEnvironment win32 h1) k = some v →
      k ∈ whitelist win32 ∧ h1 k = some v ∧ v ≠ "") := by
  have hbase : buildMinimalEnvironment win32 h1 = buildMinimalEnvironment win32 h2 := by
    unfold buildMinimalEnvironment
    refine List.filterMap_congr fun a ha => ?_
    unfold envEntry
    rw [hagree a ha]
  refine ⟨?_, ?_, ?_, ?_, ?_⟩
  · unfold childEnv
    rw [hbase]
  · unfold childEnv
    cases win32
    · simpa using lookupEnvVar_setEnvVar_self (buildMinimalEnvironment false h1)
        "PYTHONPATH" packagesDir
    · show lookupEnvVar
        (setEnvVar (setEnvVar
          (setEnvVar (buildMinimalEnvironment true h1) "PYTHONPATH" packagesDir)
          "PYTHONIOENCODING" "utf-8") "PYTHONUTF8" "1") "PYTHONPATH" = some packagesDir
      rw [lookupEnvVar_setEnvVar_other _ "PYTHONUTF8" "1" "PYTHONPATH" (by decide),
        lookupEnvVar_setEnvVar_other _ "PYTHONIOENCODING" "utf-8" "PYTHONPATH" (by decide)]
      exact lookupEnvVar_setEnvVar_self _ "PYTHONPATH" packagesDir
  · cases win32 <;> decide
  · intro k hk
    unfold buildMinimalEnvironment
    rw [lookupEnvVar_filterMap_envEntry]
    by_cases hm : k ∈ whitelist win32
    · simp [hm, envEntry, hk]
    · simp [hm]
  · intro k v hv
    unfold buildMinimalEnvironment at hv
    rw [lookupEnvVar_filterMap_envEntry] at hv
    by_cases hm : k ∈ whitelist win32
    · rw [if_pos hm] at hv
      rcases he : envEntry h1 k with _ | p
      · rw [he] at hv
        simp at hv
      · rw [he] at hv
        obtain ⟨hp1, hp2, hp3⟩ := envEntry_eq_some h1 k p he
        simp at hv
        subst hv
        exact ⟨hm, hp2, hp3⟩
    · rw [if_neg hm] at hv
      simp at hv

/-- Witness for C3: a host with a secret and a malicious `PYTHONPATH` yields
the same child environment as a clean host agreeing on the whitelist, and the
child `PYTHONPATH` is the packages directory. -/
theorem c3_witness :
    (∀ k ∈ whitelist false,
      (fun q => if q = "PATH" then some "/usr/bin" else
        if q = "AWS_SECRET" then some "hunter2" else
        if q = "PYTHONPATH" then some "/evil" else
        if q = "LANG" then some "" else (none : Option String)) k =
      (fun q => if q = "PATH" then some "/usr/bin" else
        if q = "LANG" then some "" else (none : Option String)) k) ∧
    childEnv false
        (fun q => if q = "PATH" then some "/usr/bin" else
          if q = "AWS_SECRET" then some "hunter2" else
          if q = "PYTHONPATH" then some "/evil" else
          if q = "LANG" then some "" else none) "/req/packages" =
      childEnv false
        (fun q => if q = "PATH" then some "/usr/bin" else
          if q = "LANG" then some "" else none) "/req/packages" ∧
    lookupEnvVar (childEnv false
        (fun q => if q = "PATH" then some "/usr/bin" else
          if q = "AWS_SECRET" then some "hunter2" else
          if q = "PYTHONPATH" then some "/evil" else
          if q = "LANG" then some "" else none) "/req/packages") "PYTHONPATH" =
      some "/req/packages" := by
  have h := c3_child_environment false
    (fun q => if q = "PATH" then some "/usr/bin" else
      if q = "AWS_SECRET" then some "hunter2" else
      if q = "PYTHONPATH" then some "/evil" else
      if q = "LANG" then some "" else none)
    (fun q => if q = "PATH" then some "/usr/bin" else
      if q = "LANG" then some "" else none) "/req/packages" (by decide)
  exact ⟨by decide, h.1, h.2.1⟩

theorem validatePackagesLoop_names_offender (packages : List String) (msg : String)
    (h : validatePackagesLoop packages = some msg) :
    ∃ off ∈ packages, strContains msg off = true := by
  induction packages with
  | nil => simp [validatePackagesLoop] at h
  | cons pkg rest ih =>
    by_cases h1 : strStartsWith pkg "-"
    · refine ⟨pkg, List.mem_cons_self _ _, ?_⟩
      simp [validatePackagesLoop, h1] at h
      subst h
      exact strContains_of_middle _ _ _
    · by_cases h2 : PACKAGE_NAME_REGEX pkg
      · simp [validatePackagesLoop, h1, h2] at h
        obtain ⟨off, hoff, hc⟩ := ih h
        exact ⟨off, List.mem_cons_of_mem _ hoff, hc⟩
      · refine ⟨pkg, List.mem_cons_self _ _, ?_⟩
        simp [validatePackagesLoop, h1, h2] at h
        subst h
        exact strContains_of_middle _ _ _

theorem validatePackagesLoop_rejects (packages : List String) (pkg : String)
    (hmem : pkg ∈ packages)
    (hbad : strStartsWith pkg "-" = true ∨ strContains pkg ".." = true ∨
            strContains pkg "--" = true ∨ pkg.toList.all allowedPkgChar = false) :
    ∃ msg, validatePackagesLoop packages = some msg := by
  induction packages with
  | nil => simp at hmem
  | cons q rest ih =>
    by_cases h1 : strStartsWith q "-"
    · exact ⟨invalidLeadingDashMsg q, by simp [validatePackagesLoop, h1]⟩
    · by_cases h2 : PACKAGE_NAME_REGEX q
      · have hq : pkg ∈ rest := by
          rcases List.mem_cons.mp hmem with hq | hq
          · exfalso
            subst hq
            unfold PACKAGE_NAME_REGEX at h2
            simp only [Bool.and_eq_true, Bool.not_eq_true'] at h2
            rcases hbad with hb | hb | hb | hb
            · exact h1 hb
            · exact absurd hb (by simp [h2.1.1.1.2])
            · exact absurd hb (by simp [h2.1.1.2])
            · exact absurd (h2.2.symm.trans hb) (by decide)
          · exact hq
        obtain ⟨msg, hm⟩ := ih hq
        exact ⟨msg, by simp [validatePackagesLoop, h1, h2, hm]⟩
      · exact ⟨invalidCharsetMsg q, by simp [validatePackagesLoop, h1, h2]⟩

theorem findPythonCommand_probes (probeOk : String → Bool) :
    ∀ sp ∈ (findPythonCommand probeOk).1, ∃ c, sp = .versionProbe c := by
  unfold findPythonCommand
  by_cases h3 : probeOk "python3"
  · rw [if_pos h3]
    intro sp hsp
    simp only [List.mem_singleton] at hsp
    exact ⟨"python3", hsp⟩
  · rw [if_neg h3]
    by_cases hp : probeOk "python" <;>
      [rw [if_pos hp]; rw [if_neg hp]] <;>
      · intro sp hsp
        simp only [List.mem_cons, List.not_mem_nil, or_false] at hsp
        rcases hsp with rfl | rfl
        · exact ⟨"python3", rfl⟩
        · exact ⟨"python", rfl⟩

/-- C2 counterexample: on a host whose `python3 --version` probe succeeds,
the batch `["evil..pkg"]` is rejected with an error naming the specifier, yet
a subprocess — the interpreter version probe — has already been spawned, so
"no subprocess is spawned" does not hold as stated. -/
theorem c2_counterexample :
    (installPythonPackages (fun _ => true) "/tmp/pkgs" ["evil..pkg"]).2 =
      some (invalidCharsetMsg "evil..pkg") ∧
    (installPythonPackages (fun _ => true) "/tmp/pkgs" ["evil..pkg"]).1 =
      [.versionProbe "python3"] ∧
    (installPythonPackages (fun _ => true) "/tmp/pkgs" ["evil..pkg"]).1 ≠ [] := by
  refine ⟨?_, ?_, ?_⟩ <;> decide

/-- C2 (amended): a batch containing a specifier that starts with `-`, or
contains `..` or `--`, or contains a character outside the allowed set,
always fails as a whole with no pip install subprocess spawned — only the
interpreter version probes run — and whenever an interpreter was found the
error names an offending specifier of the batch. -/
theorem c2_amended_reject_no_pip (probeOk : String → Bool) (packagesDir : String)
    (packages : List String) (pkg : String) (hmem : pkg ∈ packages)
    (hbad : strStartsWith pkg "-" = true ∨ strContains pkg ".." = true ∨
            strContains pkg "--" = true ∨ pkg.toList.all allowedPkgChar = false) :
    (∃ msg, (installPythonPackages probeOk packagesDir packages).2 = some msg) ∧
    ((findPythonCommand probeOk).2.isSome = true →
      ∃ msg, (installPythonPackages probeOk packagesDir packages).2 = some msg ∧
        ∃ off ∈ packages, strContains msg off = true) ∧
    (∀ sp ∈ (installPythonPackages probeOk packagesDir packages).1,
      ∀ c cmdArgs, sp ≠ .pipInstall c cmdArgs) := by
  obtain ⟨msg, hmsg⟩ := validatePackagesLoop_rejects packages pkg hmem hbad
  have hpr := findPythonCommand_probes probeOk
  rcases hf : findPythonCommand probeOk with ⟨probes, found⟩
  rw [hf] at hpr
  unfold installPythonPackages
  rw [hf]
  cases found with
  | none =>
    refine ⟨⟨_, rfl⟩, ?_, ?_⟩
    · intro hsome
      simp at hsome
    · intro sp hsp
      obtain ⟨c, rfl⟩ := hpr sp hsp
      intro c' cmdArgs
      simp
  | some pythonCmd =>
    refine ⟨⟨msg, by simp [hmsg]⟩, ?_, ?_⟩
    · intro _
      exact ⟨msg, by simp [hmsg],
        validatePackagesLoop_names_offender packages msg hmsg⟩
    · intro sp hsp
      simp only [hmsg] at hsp
      obtain ⟨c, rfl⟩ := hpr sp hsp
      intro c' cmdArgs
      simp

/-- Witness for the amended C2 at a concrete batch: `["requests", "evil..pkg"]`
fails, names an offender, and spawns no pip subprocess. -/
theorem c2_witness :
    ("evil..pkg" ∈ ["requests", "evil..pkg"]) ∧
    (∃ msg,
      (installPythonPackages (fun _ => true) "/tmp/pkgs"
        ["requests", "evil..pkg"]).2 = some msg ∧
      ∃ off ∈ ["requests", "evil..pkg"], strContains msg off = true) ∧
    (∀ sp ∈ (installPythonPackages (fun _ => true) "/tmp/pkgs"
        ["requests", "evil..pkg"]).1,
      ∀ c cmdArgs, sp ≠ .pipInstall c cmdArgs) := by
  have h := c2_amended_reject_no_pip (fun _ => true) "/tmp/pkgs"
    ["requests", "evil..pkg"] "evil..pkg" (by decide) (Or.inr (Or.inl (by decide)))
  exact ⟨by decide, h.2.1 (by decide), h.2.2⟩

/-- C5: with the `"auto"` sentinel the effective timeout is 120000 ms when the
dependency list is non-empty and 30000 ms otherwise; an explicit numeric
`timeout_ms` is used verbatim, packages requested or not. -/
theorem c5_timeout_resolution :
    (∀ pkgs : List String,
        resolveTimeout .auto (some pkgs) =
          if pkgs.length > 0 then 120000 else 30000) ∧
    resolveTimeout .auto none = 30000 ∧
    (∀ (n : Nat) (install_packages : Option (List String)),
        resolveTimeout (.explicitMs n) install_packages = n) := by
  refine ⟨fun pkgs => ?_, rfl, fun n ip => rfl⟩
  simp [resolveTimeout, packagesRequested]

end PyExec
